import Mathlib

/-!
Verification of the MigrantNav ingestion pipeline (MigrantNav/ingest.py and
MigrantNav/retriever.py) against its specification.  The Python code is
shallowly embedded: strings are Lean `String`/`List Char`, Python `bytes` are
`List Nat` (each < 256), machine words are `Nat` reduced modulo `2 ^ 32`,
the Neo4j store is a list of node records and the ingestion run a list of
store mutations.  The external embedding service is an oracle parameter
`svc : String → List Int`; `get_embedding` additionally reports how many
times the oracle was consulted, so "never calls the service" is expressible.
-/

/-! ## Python string primitives -/

/-- The whitespace class stripped by Python `str.strip()` (ASCII part), which
also matches the `\s` class of the `re` module on ASCII text. -/
def isPySpace (c : Char) : Bool :=
  c = ' ' || c = '\t' || c = '\n' || c = '\r' || c = '\x0b' || c = '\x0c'

/-- Python `str.strip()` on a character list: drop leading and trailing
whitespace. -/
def pyStripChars (l : List Char) : List Char :=
  ((l.dropWhile isPySpace).reverse.dropWhile isPySpace).reverse

/-- Python `str.strip()`. -/
def pyStrip (s : String) : String := String.mk (pyStripChars s.data)

/-- Python `str.lower()` (ASCII case folding suffices for the classifier
keyword vocabularies, which are ASCII). -/
def pyLower (s : String) : String := String.mk (s.data.map Char.toLower)

/-- Does `s` start with the pattern `p`? -/
def matchesAt : List Char → List Char → Bool
  | [], _ => true
  | _ :: _, [] => false
  | p :: ps, c :: cs => p == c && matchesAt ps cs

/-- Does the pattern `p` occur somewhere in `s`?  (Python `p in s`.) -/
def hasSubChars (p : List Char) : List Char → Bool
  | [] => p.isEmpty
  | c :: cs => matchesAt p (c :: cs) || hasSubChars p cs

/-- Python `needle in hay` on strings. -/
def pyContains (hay needle : String) : Bool := hasSubChars needle.data hay.data

/-! ## The article-boundary regular expression

`ARTICLE_RE = re.compile(r"^Article\s+(\d+)", re.IGNORECASE)` (ingest.py).
`match`/anchored search: the literal word `Article` case-insensitively at the
very start, then at least one whitespace character, then at least one digit;
the captured group is the maximal digit run.  Because the pattern is anchored
with `^` and compiled without `re.MULTILINE`, `findall` can only ever match
at position 0 of the searched string, hence yields at most one capture. -/

/-- Consume the pattern (given in lowercase) case-insensitively from the
front of `s`, returning the rest of `s`. -/
def dropCaseless : List Char → List Char → Option (List Char)
  | [], s => some s
  | _ :: _, [] => none
  | p :: ps, c :: cs => if p == c.toLower then dropCaseless ps cs else none

/-- `ARTICLE_RE.match(s)`: `some ds` with `ds` the captured digit run when the
anchored pattern matches at the start of `s`, else `none`. -/
def articleMatchDigits (s : List Char) : Option (List Char) :=
  match dropCaseless "article".data s with
  | none => none
  | some rest =>
    match rest with
    | [] => none
    | c :: cs =>
      if isPySpace c then
        let ds := (cs.dropWhile isPySpace).takeWhile Char.isDigit
        if ds.isEmpty then none else some ds
      else none

/-- Numeric value of a digit run (Python `int` on the captured group). -/
def natOfDigits (ds : List Char) : Nat :=
  ds.foldl (fun a c => a * 10 + (c.toNat - 48)) 0

/-- `int(ARTICLE_RE.match(s.strip()).group(1))` as used by the article
splitter, but on an already-stripped line: `some n` when the line opens an
article. -/
def matchArticleNum (s : String) : Option Nat :=
  (articleMatchDigits s.data).map natOfDigits

/-! ## Topic classifiers (ingest.py `classify_de_topic`,
`classify_free_move_topic`) -/

/-- `classify_de_topic` translated clause for clause: ordered keyword rules
over the lowercased text, first hit wins, default `"general"`. -/
def classify_de_topic (text : String) : String :=
  let lower := pyLower text
  if pyContains lower "safe countries of origin" then "safe_countries"
  else if pyContains lower "procedure management" || pyContains lower "quality assurance" then
    "procedure_management"
  else if pyContains lower "interview" || pyContains lower "hearing" then "interview"
  else if pyContains lower "appeal" || pyContains lower "remedy" then "appeal"
  else if pyContains lower "accommodation" || pyContains lower "financial support" then
    "reception_benefits"
  else if pyContains lower "registration" || pyContains lower "arrival" then "first_steps"
  else "general"

/-- `classify_free_move_topic` translated clause for clause. -/
def classify_free_move_topic (text : String) : String :=
  let lower := pyLower text
  if pyContains lower "frontier worker" || pyContains lower "cross-border" then
    "workers_cross_border"
  else if pyContains lower "dual national" || pyContains lower "dual eu" then "dual_nationals"
  else if pyContains lower "family member" then "family_members"
  else if pyContains lower "article 27" || pyContains lower "public policy" then
    "restrictions_public_policy"
  else if pyContains lower "residence card" then "residence_documents"
  else "general"

/-- Declarative reading of a keyword-rule classifier: rules are tried in list
order on the (already lowercased) text, the first whose keyword list has a
hit gives its label, and `"general"` is returned when no rule fires. -/
def firstRuleMatch : List (List String × String) → String → String
  | [], _ => "general"
  | (kws, label) :: rs, lower =>
    if kws.any (fun k => pyContains lower k) then label else firstRuleMatch rs lower

/-- The German-procedure rule table, in the priority order of the source. -/
def deTopicRules : List (List String × String) :=
  [ (["safe countries of origin"], "safe_countries"),
    (["procedure management", "quality assurance"], "procedure_management"),
    (["interview", "hearing"], "interview"),
    (["appeal", "remedy"], "appeal"),
    (["accommodation", "financial support"], "reception_benefits"),
    (["registration", "arrival"], "first_steps") ]

/-- The free-movement rule table, in the priority order of the source. -/
def freeMoveTopicRules : List (List String × String) :=
  [ (["frontier worker", "cross-border"], "workers_cross_border"),
    (["dual national", "dual eu"], "dual_nationals"),
    (["family member"], "family_members"),
    (["article 27", "public policy"], "restrictions_public_policy"),
    (["residence card"], "residence_documents") ]

/-! ## Fixed-window splitters (ingest.py `split_de_procedure_into_chunks`,
`split_free_move_into_chunks`, `split_subsidiary_into_chunks`)

Each splitter slides a window `text[start : start + chunk_size]` over one
page, then sets `start = end - overlap` with `end = start + chunk_size`
unclipped.  The DE-procedure and free-movement loops `break` out of the whole
page as soon as a window is whitespace-only after trimming; the subsidiary
loop instead skips windows whose trimmed length is ≤ 100 and never breaks.
The loops are modelled with explicit fuel; the wrappers pass
`text.length + 1` fuel, which is never exhausted in the `overlap <
chunk_size` regime of every call site because `start` strictly increases. -/

/-- Python `text[start : start + len]`. -/
def sliceWindow (text : List Char) (start len : Nat) : List Char :=
  (text.drop start).take len

/-- The DE-procedure / free-movement while-loop over one page: emitted
`(start, window)` pairs, and whether the loop exited through the
whitespace-window `break` (true) or by running off the end (false). -/
def chunk_loop (chunkSize overlap : Nat) (text : List Char) :
    Nat → Nat → List (Nat × List Char) × Bool
  | 0, _ => ([], false)
  | fuel + 1, start =>
    if start < text.length then
      let w := sliceWindow text start chunkSize
      if (pyStripChars w).isEmpty then ([], true)
      else
        let r := chunk_loop chunkSize overlap text fuel (start + chunkSize - overlap)
        ((start, w) :: r.1, r.2)
    else ([], false)

/-- The same window arithmetic with no break and no filtering: every window
the loop would examine. -/
def raw_windows (chunkSize overlap : Nat) (text : List Char) :
    Nat → Nat → List (Nat × List Char)
  | 0, _ => []
  | fuel + 1, start =>
    if start < text.length then
      (start, sliceWindow text start chunkSize) ::
        raw_windows chunkSize overlap text fuel (start + chunkSize - overlap)
    else []

/-- One page's emitted windows (fuel `text.length + 1` as the wrappers use). -/
def chunk_page (chunkSize overlap : Nat) (text : List Char) :
    List (Nat × List Char) × Bool :=
  chunk_loop chunkSize overlap text (text.length + 1) 0

/-- A chunk document as emitted by the DE-procedure and free-movement
splitters: trimmed window text plus metadata. -/
structure ChunkDoc where
  text : String
  source : String
  page : Nat
  domain : String
deriving DecidableEq

/-- `split_de_procedure_into_chunks(pdf_path, chunk_size, overlap)` on the
extracted page texts (PyPDF page metadata is the 0-based page index). -/
def split_de_procedure_into_chunks (pages : List String) (chunkSize overlap : Nat) :
    List ChunkDoc :=
  pages.enum.flatMap fun pg =>
    ((chunk_page chunkSize overlap pg.2.data).1).map fun sw =>
      { text := String.mk (pyStripChars sw.2), source := "DE_ASYLUM_PROCEDURE_STAGES.pdf",
        page := pg.1, domain := "de_procedure" }

/-- `split_free_move_into_chunks`, the same loop with its own metadata. -/
def split_free_move_into_chunks (pages : List String) (chunkSize overlap : Nat) :
    List ChunkDoc :=
  pages.enum.flatMap fun pg =>
    ((chunk_page chunkSize overlap pg.2.data).1).map fun sw =>
      { text := String.mk (pyStripChars sw.2),
        source := "Guidance on the right of free movement of EU citizens and their families.pdf",
        page := pg.1, domain := "free_movement_guidance" }

/-- A subsidiary-protection chunk: trimmed window text, metadata and the
derived topic label. -/
structure SubsChunk where
  text : String
  source : String
  page : Nat
  domain : String
  topic : String
deriving DecidableEq

/-- `ARTICLE_RE.findall(chunk_text)`: the pattern is anchored and compiled
without multiline, so there is at most one hit, at position 0. -/
def subsFindall (s : List Char) : List (List Char) :=
  match articleMatchDigits s with
  | some ds => [ds]
  | none => []

/-- Python `"/".join` on captured digit runs. -/
def joinSlash : List (List Char) → List Char
  | [] => []
  | [d] => d
  | d :: rest => d ++ '/' :: joinSlash rest

/-- The subsidiary topic f-string
`f"Article {'/'.join(art_matches[:2]) if art_matches else 'general'}"`:
the conditional sits inside the braces, so an empty match list yields the
label "Article general". -/
def subsTopicOf (ct : List Char) : String :=
  let ms := subsFindall ct
  "Article " ++ String.mk (if ms.isEmpty then "general".data else joinSlash (ms.take 2))

/-- The subsidiary while-loop over one page: trimmed window texts whose
length exceeds 100; no break. -/
def subs_loop (chunkSize overlap : Nat) (text : List Char) :
    Nat → Nat → List (List Char)
  | 0, _ => []
  | fuel + 1, start =>
    if start < text.length then
      let ct := pyStripChars (sliceWindow text start chunkSize)
      let r := subs_loop chunkSize overlap text fuel (start + chunkSize - overlap)
      if 100 < ct.length then ct :: r else r
    else []

/-- `split_subsidiary_into_chunks` on the extracted page texts. -/
def split_subsidiary_into_chunks (pages : List String) (chunkSize overlap : Nat) :
    List SubsChunk :=
  pages.enum.flatMap fun pg =>
    (subs_loop chunkSize overlap pg.2.data (pg.2.data.length + 1) 0).map fun ct =>
      { text := String.mk ct, source := "Subsidiary Protection - Third-country nations.pdf",
        page := pg.1, domain := "subsidiary_protection", topic := subsTopicOf ct }

/-! ## Article-boundary splitter (ingest.py `split_pdf_into_articles`)

The source concatenates the extracted page texts (each followed by a
newline), splits into lines, and scans them: a line whose *stripped* text
matches the article regex opens a new unit and closes the previous one; lines
before the first boundary are dropped; the text of a unit is its lines joined
with newlines and then stripped; the page of a unit is looked up from the
character offset of its boundary line against the cumulative page offsets. -/

/-- Python `"\n".join(lines)`. -/
def joinNL : List String → String
  | [] => ""
  | [s] => s
  | s :: rest => s ++ "\n" ++ joinNL rest

/-- Split a character list at every newline (keeping empty pieces). -/
def splitOnNL : List Char → List (List Char)
  | [] => [[]]
  | c :: rest =>
    if c = '\n' then [] :: splitOnNL rest
    else
      match splitOnNL rest with
      | [] => [[c]]
      | l :: ls => (c :: l) :: ls

/-- Python `str.splitlines()` with newline as the line terminator: an empty
string has no lines, and a trailing newline does not open a final empty
line. -/
def pySplitLines (s : String) : List String :=
  match s.data with
  | [] => []
  | l =>
    let ps := (splitOnNL l).map String.mk
    if l.getLast? = some '\n' then ps.dropLast else ps

/-- `all_text`: each page's text followed by a newline, concatenated. -/
def allTextOf (pages : List String) : String :=
  pages.foldl (fun a p => a ++ p ++ "\n") ""

/-- The lines paired with their starting character offsets
(`line_offsets[i]`; each line costs its length plus the newline). -/
def linesWithOffsets : List String → Nat → List (String × Nat)
  | [], _ => []
  | l :: ls, acc => (l, acc) :: linesWithOffsets ls (acc + l.length + 1)

/-- `page_offsets`: each page's starting character offset in `all_text`
paired with its page number (the 0-based page index). -/
def pageOffsets : List String → Nat → Nat → List (Nat × Nat)
  | [], _, _ => []
  | p :: ps, acc, i => (acc, i) :: pageOffsets ps (acc + p.length + 1) (i + 1)

/-- `guess_page`: the page of the last page offset at or before
`startChar`, scanning the offsets in reverse; 0 when none is found. -/
def guessPage (offs : List (Nat × Nat)) (startChar : Nat) : Nat :=
  match offs.reverse.find? (fun op => decide (op.1 ≤ startChar)) with
  | some op => op.2
  | none => 0

/-- An article-style unit: text, parsed article number, source document name
and resolved page. -/
structure ArtDoc where
  text : String
  articleNumber : Nat
  source : String
  page : Nat
deriving DecidableEq

/-- Is this (line, offset) pair an article boundary?  The source strips the
line and then applies the anchored regex. -/
def isArticleBoundary (p : String × Nat) : Bool :=
  (matchArticleNum (pyStrip p.1)).isSome

/-- The line scan of `split_pdf_into_articles`: state `some (n, off, acc)`
holds the article number, starting offset and accumulated lines of the unit
being built (the accumulator always starts from the boundary line, so it is
never empty and the source's `and current_lines` guard is always true);
`none` means no boundary has been seen yet, and such lines are dropped. -/
def scanArticles (pgo : List (Nat × Nat)) (src : String) :
    List (String × Nat) → Option (Nat × Nat × List String) → List ArtDoc
  | [], none => []
  | [], some (m, st, acc) =>
    [{ text := pyStrip (joinNL acc), articleNumber := m, source := src,
       page := guessPage pgo st }]
  | (l, off) :: rest, cur =>
    match matchArticleNum (pyStrip l), cur with
    | some n, some (m, st, acc) =>
      { text := pyStrip (joinNL acc), articleNumber := m, source := src,
        page := guessPage pgo st } :: scanArticles pgo src rest (some (n, off, [l]))
    | some n, none => scanArticles pgo src rest (some (n, off, [l]))
    | none, some (m, st, acc) => scanArticles pgo src rest (some (m, st, acc ++ [l]))
    | none, none => scanArticles pgo src rest none

/-- `split_pdf_into_articles` on the extracted page texts; `src` is the
basename of the pdf path. -/
def split_pdf_into_articles (pages : List String) (src : String) : List ArtDoc :=
  scanArticles (pageOffsets pages 0 0) src
    (linesWithOffsets (pySplitLines (allTextOf pages)) 0) none

/-- How many lines open an article (their stripped text matches the
regex). -/
def boundaryCount (lines : List String) : Nat :=
  (lines.filter (fun l => (matchArticleNum (pyStrip l)).isSome)).length

/-- The declarative segmentation: drop lines before the first boundary; each
boundary line opens a segment holding it and the following non-boundary
lines, remembering the boundary's article number and offset. -/
def articleSegs : List (String × Nat) → List (Nat × Nat × List String)
  | [] => []
  | (l, off) :: rest =>
    match matchArticleNum (pyStrip l) with
    | some n =>
      (n, off, l :: (rest.takeWhile (fun p => !isArticleBoundary p)).map Prod.fst) ::
        articleSegs (rest.dropWhile (fun p => !isArticleBoundary p))
    | none => articleSegs rest
termination_by ls => ls.length
decreasing_by
  · exact Nat.lt_succ_of_le (List.dropWhile_sublist _).length_le
  · exact Nat.lt_succ_self _

/-! ## Content-addressed identifiers (ingest.py
`hashlib.sha256(...).hexdigest()[:16]`)

A complete executable SHA-256 (FIPS 180-4) over byte lists, with 32-bit
words as `Nat` reduced modulo `2 ^ 32`; `hexdigest` renders the 32 digest
bytes as 64 lowercase hex characters and the identifier keeps the first
16.  Python's `str.encode()` is UTF-8. -/

/-- `2 ^ 32`. -/
def wordMod : Nat := 4294967296

/-- Right-rotate a 32-bit word by `n`. -/
def rotr32 (n x : Nat) : Nat := ((x >>> n) ||| (x <<< (32 - n))) % wordMod

/-- Bitwise complement within 32 bits. -/
def not32 (x : Nat) : Nat := x ^^^ 4294967295

/-- The SHA-256 `Ch` function. -/
def ch32 (x y z : Nat) : Nat := (x &&& y) ^^^ (not32 x &&& z)

/-- The SHA-256 `Maj` function. -/
def maj32 (x y z : Nat) : Nat := (x &&& y) ^^^ (x &&& z) ^^^ (y &&& z)

/-- Σ₀. -/
def bigSigma0 (x : Nat) : Nat := rotr32 2 x ^^^ rotr32 13 x ^^^ rotr32 22 x

/-- Σ₁. -/
def bigSigma1 (x : Nat) : Nat := rotr32 6 x ^^^ rotr32 11 x ^^^ rotr32 25 x

/-- σ₀. -/
def smallSigma0 (x : Nat) : Nat := rotr32 7 x ^^^ rotr32 18 x ^^^ (x >>> 3)

/-- σ₁. -/
def smallSigma1 (x : Nat) : Nat := rotr32 17 x ^^^ rotr32 19 x ^^^ (x >>> 10)

/-- The 64 SHA-256 round constants. -/
def sha256K : List Nat :=
  [ 1116352408, 1899447441, 3049323471, 3921009573,
    961987163, 1508970993, 2453635748, 2870763221,
    3624381080, 310598401, 607225278, 1426881987,
    1925078388, 2162078206, 2614888103, 3248222580,
    3835390401, 4022224774, 264347078, 604807628,
    770255983, 1249150122, 1555081692, 1996064986,
    2554220882, 2821834349, 2952996808, 3210313671,
    3336571891, 3584528711, 113926993, 338241895,
    666307205, 773529912, 1294757372, 1396182291,
    1695183700, 1986661051, 2177026350, 2456956037,
    2730485921, 2820302411, 3259730800, 3345764771,
    3516065817, 3600352804, 4094571909, 275423344,
    430227734, 506948616, 659060556, 883997877,
    958139571, 1322822218, 1537002063, 1747873779,
    1955562222, 2024104815, 2227730452, 2361852424,
    2428436474, 2756734187, 3204031479, 3329325298 ]

/-- The eight-word SHA-256 state. -/
structure Hash8 where
  a : Nat
  b : Nat
  c : Nat
  d : Nat
  e : Nat
  f : Nat
  g : Nat
  h : Nat

/-- The SHA-256 initial state. -/
def sha256H0 : Hash8 :=
  ⟨1779033703, 3144134277, 1013904242, 2773480762,
   1359893119, 2600822924, 528734635, 1541459225⟩

/-- SHA-256 padding: append `0x80`, zeros to 56 mod 64, and the 64-bit
big-endian bit length. -/
def sha256Pad (msg : List Nat) : List Nat :=
  let len := msg.length
  let zeros := (120 - ((len + 1) % 64)) % 64
  let bitLen := 8 * len
  msg ++ [128] ++ List.replicate zeros 0 ++
    [ (bitLen >>> 56) % 256, (bitLen >>> 48) % 256, (bitLen >>> 40) % 256,
      (bitLen >>> 32) % 256, (bitLen >>> 24) % 256, (bitLen >>> 16) % 256,
      (bitLen >>> 8) % 256, bitLen % 256 ]

/-- Big-endian 4-byte groups to 32-bit words. -/
def bytesToWords : List Nat → List Nat
  | b0 :: b1 :: b2 :: b3 :: rest =>
    (((b0 * 256 + b1) * 256 + b2) * 256 + b3) :: bytesToWords rest
  | _ => []

/-- Split a list into 64-element blocks (structural recursion on a fuel
bound; `l.length` steps always suffice since every step drops 64 > 0
elements of a non-empty list). -/
def chunksOf64Fuel : Nat → List Nat → List (List Nat)
  | 0, _ => []
  | _, [] => []
  | fuel + 1, c :: rest => ((c :: rest).take 64) :: chunksOf64Fuel fuel ((c :: rest).drop 64)

/-- Split the padded message into 64-byte blocks. -/
def chunksOf64 (l : List Nat) : List (List Nat) := chunksOf64Fuel l.length l

/-- Extend the 16-word block schedule by `n` more words. -/
def extendSchedule : Nat → List Nat → List Nat
  | 0, w => w
  | n + 1, w =>
    let i := w.length
    let nw := (smallSigma1 (w.getD (i - 2) 0) + w.getD (i - 7) 0 +
      smallSigma0 (w.getD (i - 15) 0) + w.getD (i - 16) 0) % wordMod
    extendSchedule n (w ++ [nw])

/-- One compression round with `kw = (K[t] + W[t]) % 2 ^ 32` folded in. -/
def roundStep (st : Hash8) (kw : Nat) : Hash8 :=
  let t1 := (st.h + bigSigma1 st.e + ch32 st.e st.f st.g + kw) % wordMod
  let t2 := (bigSigma0 st.a + maj32 st.a st.b st.c) % wordMod
  ⟨(t1 + t2) % wordMod, st.a, st.b, st.c, (st.d + t1) % wordMod, st.e, st.f, st.g⟩

/-- Compress one 64-byte block into the state. -/
def compressBlock (st : Hash8) (block : List Nat) : Hash8 :=
  let w := extendSchedule 48 (bytesToWords block)
  let kw := (sha256K.zip w).map (fun p => (p.1 + p.2) % wordMod)
  let r := kw.foldl roundStep st
  ⟨(st.a + r.a) % wordMod, (st.b + r.b) % wordMod, (st.c + r.c) % wordMod,
   (st.d + r.d) % wordMod, (st.e + r.e) % wordMod, (st.f + r.f) % wordMod,
   (st.g + r.g) % wordMod, (st.h + r.h) % wordMod⟩

/-- The eight words of the SHA-256 digest of a byte message. -/
def sha256Words (msg : List Nat) : List Nat :=
  let fin := (chunksOf64 (sha256Pad msg)).foldl compressBlock sha256H0
  [fin.a, fin.b, fin.c, fin.d, fin.e, fin.f, fin.g, fin.h]

/-- Big-endian bytes of a 32-bit word. -/
def word4BytesBE (w : Nat) : List Nat :=
  [(w >>> 24) % 256, (w >>> 16) % 256, (w >>> 8) % 256, w % 256]

/-- The 32 digest bytes. -/
def sha256Bytes (msg : List Nat) : List Nat :=
  (sha256Words msg).flatMap word4BytesBE

/-- A lowercase hex digit. -/
def hexDigitChar (n : Nat) : Char :=
  if n < 10 then Char.ofNat (48 + n) else Char.ofNat (87 + n)

/-- Two lowercase hex characters of a byte. -/
def byteHexChars (b : Nat) : List Char := [hexDigitChar (b / 16), hexDigitChar (b % 16)]

/-- `hashlib.sha256(msg).hexdigest()` as a character list. -/
def sha256HexChars (msg : List Nat) : List Char :=
  (sha256Bytes msg).flatMap byteHexChars

/-- UTF-8 encoding of one character (Python `str.encode()`). -/
def utf8Encode (c : Char) : List Nat :=
  let n := c.toNat
  if n < 128 then [n]
  else if n < 2048 then [192 + n / 64, 128 + n % 64]
  else if n < 65536 then [224 + n / 4096, 128 + (n / 64) % 64, 128 + n % 64]
  else [240 + n / 262144, 128 + (n / 4096) % 64, 128 + (n / 64) % 64, 128 + n % 64]

/-- `s.encode()`. -/
def strBytes (s : String) : List Nat := s.data.flatMap utf8Encode

/-- `hashlib.sha256(s.encode()).hexdigest()[:16]`. -/
def hash_id16 (s : String) : String :=
  String.mk ((sha256HexChars (strBytes s)).take 16)

/-- The identifier of an article-style unit (`ingest_articles`,
`ingest_charter_articles`, `ingest_geneva_articles`): first 16 hex characters
of SHA-256 of the unit text. -/
def article_node_id (text : String) : String := hash_id16 text

/-- The identifier of a topic-tagged chunk unit (`ingest_de_procedure`,
`ingest_subsidiary_chunks`, `ingest_free_movement_guidance`): first 16 hex
characters of SHA-256 of text concatenated with topic. -/
def chunk_node_id (text topic : String) : String := hash_id16 (text ++ topic)

/-! ## The embedding client (ingest.py `get_embedding`)

The external service is an oracle `svc`; the second component counts how
many times the service was called, so "the embedding step returns an empty
result without calling the service" is a statement of the model. -/

/-- `get_embedding`: empty or whitespace-only text short-circuits to an
empty vector with zero service calls; anything else is one service call. -/
def get_embedding (svc : String → List Int) (text : String) : List Int × Nat :=
  if text = "" || pyStrip text = "" then ([], 0) else (svc text, 1)

/-! ## The store model (Neo4j nodes and the mutations ingest.py issues) -/

/-- A persisted unit node; the label plays the role of the Neo4j node label
and the remaining fields of its properties (the article-number property
stands for `article_number` / `charter_article_number` /
`geneva_article_number` according to the label). -/
structure UnitNode where
  label : String
  id : String
  source : String
  page : Nat
  validFrom : String
  jurisdiction : String
  articleNumber : Option Nat
  topic : Option String
  domain : Option String
  text : String
  embedding : List Int
deriving DecidableEq

/-- One store mutation issued by the pipeline, in program order. -/
inductive Mutation where
  | resetNodes (label : String)
  | addConstraint (label : String)
  | mergeRegulation (id name jurisdiction validFrom : String)
  | mergeCountry (code : String)
  | mergeUnit (n : UnitNode) (regId relType : String)
deriving DecidableEq

/-- Source path constants of ingest.py. -/
def PDF_DUBLIN : String := "./data/DUBLIN REGULATIONS.pdf"

def PDF_CHARTER : String := "./data/CHARTER_OF_FUNDAMENTAL_RIGHTS.pdf"

def PDF_DE_PROC : String := "./data/DE_ASYLUM_PROCEDURE_STAGES.pdf"

def PDF_SUBSIDIARY : String := "./data/Subsidiary Protection - Third-country nations.pdf"

def PDF_FREE_MOVE : String :=
  "./data/Guidance on the right of free movement of EU citizens and their families.pdf"

def PDF_REFUGEE_CONV : String :=
  "./data/1951-Refugee Convention-1967-protocol (UNHCR Mandate).pdf"

/-- Effective dates (ISO format, as `date(...).isoformat()` renders them). -/
def VALID_FROM_SUBSIDIARY : String := "2024-05-22"

def VALID_FROM_FREE_MOVE : String := "2023-12-22"

def VALID_FROM_REFUGEE_CONV : String := "1954-04-22"

def VALID_FROM_DUBLIN : String := "2013-06-19"

def VALID_FROM_CHARTER : String := "2009-12-01"

def VALID_FROM_DE_PROC : String := "2020-01-01"

def JURISDICTION : String := "EU"

/-- `init_graph`: reset the eight node labels, then create the eight
uniqueness constraints. -/
def init_graph_mutations : List Mutation :=
  [ Mutation.resetNodes "Regulation", Mutation.resetNodes "Article",
    Mutation.resetNodes "CharterArticle", Mutation.resetNodes "DEProcedure",
    Mutation.resetNodes "Country", Mutation.resetNodes "SubsidiarySection",
    Mutation.resetNodes "FreeMovementSection", Mutation.resetNodes "GenevaArticle",
    Mutation.addConstraint "Regulation", Mutation.addConstraint "Article",
    Mutation.addConstraint "CharterArticle", Mutation.addConstraint "DEProcedure",
    Mutation.addConstraint "Country", Mutation.addConstraint "SubsidiarySection",
    Mutation.addConstraint "FreeMovementSection", Mutation.addConstraint "GenevaArticle" ]

/-- The Dublin-applicable EU member states seeded as reference data. -/
def eu_states : List String :=
  [ "AT", "BE", "BG", "HR", "CY", "CZ", "DK", "EE", "FI",
    "FR", "DE", "GR", "HU", "IE", "IT", "LV", "LT", "LU",
    "MT", "NL", "PL", "PT", "RO", "SK", "SI", "ES", "SE" ]

/-- `create_core_legal_structure`: the six regulation nodes then the country
reference nodes. -/
def create_core_legal_structure : List Mutation :=
  [ Mutation.mergeRegulation "EU_604_2013" "Dublin III Regulation" "EU" VALID_FROM_DUBLIN,
    Mutation.mergeRegulation "EU_CHARTER_2000"
      "Charter of Fundamental Rights of the European Union" "EU" VALID_FROM_CHARTER,
    Mutation.mergeRegulation "DE_ASYLUM_STAGES"
      "Stages of the German Asylum Procedure" "DE" VALID_FROM_DE_PROC,
    Mutation.mergeRegulation "EU_2024_1347"
      "Regulation (EU) 2024/1347 on qualification and subsidiary protection" "EU"
      VALID_FROM_SUBSIDIARY,
    Mutation.mergeRegulation "EU_FREE_MOVE_GUIDE_2023"
      "Guidance on the right of free movement of EU citizens and their families" "EU"
      VALID_FROM_FREE_MOVE,
    Mutation.mergeRegulation "UN_GENEVA_1951"
      "1951 Refugee Convention and 1967 Protocol" "INTL" VALID_FROM_REFUGEE_CONV ]
  ++ eu_states.map Mutation.mergeCountry

/-- `ingest_articles`: one Article node per Dublin unit.  (The source skips a
document whose `article_number` metadata is missing; the splitter of this
model always sets it, so the skip branch is dead here just as it is for the
documents the source's own splitter produces.) -/
def ingest_articles (svc : String → List Int) (documents : List ArtDoc) : List Mutation :=
  documents.map fun doc =>
    Mutation.mergeUnit
      { label := "Article", id := article_node_id doc.text, source := doc.source,
        page := doc.page, validFrom := VALID_FROM_DUBLIN, jurisdiction := JURISDICTION,
        articleNumber := some doc.articleNumber, topic := none, domain := none,
        text := doc.text, embedding := (get_embedding svc doc.text).1 }
      "EU_604_2013" "HAS_ARTICLE"

/-- `ingest_charter_articles`. -/
def ingest_charter_articles (svc : String → List Int) (documents : List ArtDoc) :
    List Mutation :=
  documents.map fun doc =>
    Mutation.mergeUnit
      { label := "CharterArticle", id := article_node_id doc.text, source := doc.source,
        page := doc.page, validFrom := VALID_FROM_CHARTER, jurisdiction := JURISDICTION,
        articleNumber := some doc.articleNumber, topic := none, domain := none,
        text := doc.text, embedding := (get_embedding svc doc.text).1 }
      "EU_CHARTER_2000" "HAS_CHARTER_ARTICLE"

/-- `ingest_de_procedure`: classify, derive the id from text plus topic,
embed, persist. -/
def ingest_de_procedure (svc : String → List Int) (documents : List ChunkDoc) :
    List Mutation :=
  documents.map fun doc =>
    Mutation.mergeUnit
      { label := "DEProcedure", id := chunk_node_id doc.text (classify_de_topic doc.text),
        source := doc.source, page := doc.page, validFrom := VALID_FROM_DE_PROC,
        jurisdiction := "DE", articleNumber := none,
        topic := some (classify_de_topic doc.text), domain := some "de_procedure",
        text := doc.text, embedding := (get_embedding svc doc.text).1 }
      "DE_ASYLUM_STAGES" "HAS_SECTION"

/-- `ingest_subsidiary_chunks`: the topic travels in the chunk metadata. -/
def ingest_subsidiary_chunks (svc : String → List Int) (documents : List SubsChunk) :
    List Mutation :=
  documents.map fun doc =>
    Mutation.mergeUnit
      { label := "SubsidiarySection", id := chunk_node_id doc.text doc.topic,
        source := doc.source, page := doc.page, validFrom := VALID_FROM_SUBSIDIARY,
        jurisdiction := JURISDICTION, articleNumber := none, topic := some doc.topic,
        domain := some "subsidiary_protection", text := doc.text,
        embedding := (get_embedding svc doc.text).1 }
      "EU_2024_1347" "HAS_SECTION"

/-- `ingest_free_movement_guidance`. -/
def ingest_free_movement_guidance (svc : String → List Int) (documents : List ChunkDoc) :
    List Mutation :=
  documents.map fun doc =>
    Mutation.mergeUnit
      { label := "FreeMovementSection",
        id := chunk_node_id doc.text (classify_free_move_topic doc.text),
        source := doc.source, page := doc.page, validFrom := VALID_FROM_FREE_MOVE,
        jurisdiction := "EU", articleNumber := none,
        topic := some (classify_free_move_topic doc.text),
        domain := some "free_movement_guidance", text := doc.text,
        embedding := (get_embedding svc doc.text).1 }
      "EU_FREE_MOVE_GUIDE_2023" "HAS_SECTION"

/-- `split_geneva_into_articles`: the article splitter with the Geneva
metadata key. -/
def split_geneva_into_articles (pages : List String) : List ArtDoc :=
  split_pdf_into_articles pages "1951-Refugee Convention-1967-protocol (UNHCR Mandate).pdf"

/-- `ingest_geneva_articles`. -/
def ingest_geneva_articles (svc : String → List Int) (documents : List ArtDoc) :
    List Mutation :=
  documents.map fun doc =>
    Mutation.mergeUnit
      { label := "GenevaArticle", id := article_node_id doc.text, source := doc.source,
        page := doc.page, validFrom := VALID_FROM_REFUGEE_CONV, jurisdiction := "INTL",
        articleNumber := some doc.articleNumber, topic := none, domain := none,
        text := doc.text, embedding := (get_embedding svc doc.text).1 }
      "UN_GENEVA_1951" "HAS_ARTICLE"

/-- `ingest_all`: checks the six source paths up front, raising (an error
value, with no mutation issued) at the first missing one; otherwise resets
and seeds the store and ingests the six sources in order.  `pdfs` maps a
path to its extracted page texts, `none` when the file is missing. -/
def ingest_all (svc : String → List Int) (pdfs : String → Option (List String)) :
    List Mutation × Option String :=
  match [PDF_DUBLIN, PDF_CHARTER, PDF_DE_PROC, PDF_SUBSIDIARY, PDF_FREE_MOVE,
      PDF_REFUGEE_CONV].find? (fun p => (pdfs p).isNone) with
  | some p => ([], some ("Missing PDF: " ++ p))
  | none =>
    let pagesOf := fun p => (pdfs p).getD []
    (init_graph_mutations ++ create_core_legal_structure ++
      ingest_articles svc
        (split_pdf_into_articles (pagesOf PDF_DUBLIN) "DUBLIN REGULATIONS.pdf") ++
      ingest_charter_articles svc
        (split_pdf_into_articles (pagesOf PDF_CHARTER) "CHARTER_OF_FUNDAMENTAL_RIGHTS.pdf") ++
      ingest_de_procedure svc (split_de_procedure_into_chunks (pagesOf PDF_DE_PROC) 800 150) ++
      ingest_subsidiary_chunks svc
        (split_subsidiary_into_chunks (pagesOf PDF_SUBSIDIARY) 1200 200) ++
      ingest_free_movement_guidance svc
        (split_free_move_into_chunks (pagesOf PDF_FREE_MOVE) 1200 200) ++
      ingest_geneva_articles svc (split_geneva_into_articles (pagesOf PDF_REFUGEE_CONV)),
      none)

/-- `MERGE` of a unit node keyed by its id (within its label): update in
place when present, else append. -/
def upsertNode (n : UnitNode) (acc : List UnitNode) : List UnitNode :=
  if acc.any (fun x => x.label == n.label && x.id == n.id) then
    acc.map (fun x => if x.label == n.label && x.id == n.id then n else x)
  else acc ++ [n]

/-- The unit nodes of the store after applying the mutations in order. -/
def apply_mutations (ms : List Mutation) : List UnitNode :=
  ms.foldl (fun acc m =>
    match m with
    | Mutation.mergeUnit n _ _ => upsertNode n acc
    | _ => acc) []

/-! ## Direct article lookup (retriever.py) -/

/-- Python `"\n\n".join`. -/
def joinBlank : List String → String
  | [] => ""
  | [s] => s
  | s :: rest => s ++ "\n\n" ++ joinBlank rest

/-- Insert keeping ascending pages, after any equal page (stable). -/
def insertByPage (n : UnitNode) : List UnitNode → List UnitNode
  | [] => [n]
  | x :: xs => if n.page < x.page then n :: x :: xs else x :: insertByPage n xs

/-- `ORDER BY page` of the store's matching rows: a stable ascending sort. -/
def sortByPage (l : List UnitNode) : List UnitNode :=
  l.foldl (fun acc n => insertByPage n acc) []

/-- `fetch_article_text`: the rows matching the Dublin label and article
number, ordered by page; each row's text is appended only when truthy
(non-empty); `None` when no text was collected. -/
def fetch_article_text (store : List UnitNode) (num : Nat) : Option String :=
  let rows := sortByPage (store.filter
    (fun a => a.label == "Article" && a.articleNumber == some num))
  let texts := rows.foldl (fun ts r => if r.text = "" then ts else ts ++ [r.text]) []
  if texts.isEmpty then none else some (joinBlank texts)

/-- `fetch_charter_article_text` (its number property keyed per label). -/
def fetch_charter_article_text (store : List UnitNode) (num : Nat) : Option String :=
  let rows := sortByPage (store.filter
    (fun c => c.label == "CharterArticle" && c.articleNumber == some num))
  let texts := rows.foldl (fun ts r => if r.text = "" then ts else ts ++ [r.text]) []
  if texts.isEmpty then none else some (joinBlank texts)

/-- `fetch_subsidiary_article_text`: matches the label `SubsidiaryArticle` —
a label the ingestion pipeline never writes (subsidiary chunks are stored
under `SubsidiarySection`). -/
def fetch_subsidiary_article_text (store : List UnitNode) (num : Nat) : Option String :=
  let rows := sortByPage (store.filter
    (fun s => s.label == "SubsidiaryArticle" && s.articleNumber == some num))
  let texts := rows.foldl (fun ts r => if r.text = "" then ts else ts ++ [r.text]) []
  if texts.isEmpty then none else some (joinBlank texts)

/-- The C7 claim's reading of the lookup contract, written from the spec's
words: the concatenation of all matching unit texts ordered by ascending
page, `None` exactly when no unit matches. -/
def fetch_article_text_claimed (store : List UnitNode) (num : Nat) : Option String :=
  let rows := sortByPage (store.filter
    (fun a => a.label == "Article" && a.articleNumber == some num))
  if rows.isEmpty then none else some (joinBlank (rows.map (fun r => r.text)))

/-- The claim's reading for the charter family. -/
def fetch_charter_article_text_claimed (store : List UnitNode) (num : Nat) : Option String :=
  let rows := sortByPage (store.filter
    (fun c => c.label == "CharterArticle" && c.articleNumber == some num))
  if rows.isEmpty then none else some (joinBlank (rows.map (fun r => r.text)))

/-! ## The identifier is a truncated hash, so distinct topics give distinct
canonical content but can only give distinct identifiers up to hash
collisions (C1) -/

/-- Big-endian value of a byte list. -/
def beVal : List Nat → Nat
  | [] => 0
  | b :: bs => b * 256 ^ bs.length + beVal bs

/-- Topic labels `'a' * i`: pairwise distinct by length. -/
def collisionLabel (i : Nat) : String := String.mk (List.replicate i 'a')

theorem classify_de_topic_rules (t : String) :
    classify_de_topic t = firstRuleMatch deTopicRules (pyLower t) := by
  simp [classify_de_topic, firstRuleMatch, deTopicRules, List.any_cons, List.any_nil,
    Bool.or_false]

theorem classify_free_move_topic_rules (t : String) :
    classify_free_move_topic t = firstRuleMatch freeMoveTopicRules (pyLower t) := by
  simp [classify_free_move_topic, firstRuleMatch, freeMoveTopicRules, List.any_cons,
    List.any_nil, Bool.or_false]

/-! ## Substring characterizations -/

theorem matchesAt_iff (p : List Char) : ∀ s, matchesAt p s = true ↔ ∃ r, s = p ++ r := by
  induction p with
  | nil => intro s; simp [matchesAt]
  | cons a ps ih =>
    intro s
    cases s with
    | nil => simp [matchesAt]
    | cons c cs =>
      simp only [matchesAt, Bool.and_eq_true, beq_iff_eq, ih]
      constructor
      · rintro ⟨rfl, r, rfl⟩; exact ⟨r, rfl⟩
      · rintro ⟨r, hr⟩
        rw [List.cons_append] at hr
        cases hr
        exact ⟨rfl, r, rfl⟩

theorem hasSubChars_iff (p : List Char) : ∀ s, hasSubChars p s = true ↔ ∃ l r, s = l ++ p ++ r := by
  intro s
  induction s with
  | nil =>
    simp only [hasSubChars, List.isEmpty_iff]
    constructor
    · rintro rfl; exact ⟨[], [], rfl⟩
    · rintro ⟨l, r, hr⟩
      rcases List.append_eq_nil.mp (List.append_eq_nil.mp hr.symm).1 with ⟨-, h2⟩
      exact h2
  | cons c cs ih =>
    simp only [hasSubChars, Bool.or_eq_true, matchesAt_iff, ih]
    constructor
    · rintro (⟨r, hr⟩ | ⟨l, r, hr⟩)
      · exact ⟨[], r, by simp [hr]⟩
      · exact ⟨c :: l, r, by simp [hr]⟩
    · rintro ⟨l, r, hr⟩
      cases l with
      | nil => exact Or.inl ⟨r, by simpa using hr⟩
      | cons x xs =>
        rw [List.cons_append, List.cons_append] at hr
        cases hr
        exact Or.inr ⟨xs, r, rfl⟩

theorem lower_keeps_interview (t : String)
    (h : pyContains t "unaccompanied minor interview appeal" = true) :
    pyContains (pyLower t) "interview" = true := by
  unfold pyContains at h ⊢
  rw [hasSubChars_iff] at h ⊢
  obtain ⟨l, r, hr⟩ := h
  refine ⟨l.map Char.toLower ++ "unaccompanied minor ".data,
    " appeal".data ++ r.map Char.toLower, ?_⟩
  have hdata : (pyLower t).data = t.data.map Char.toLower := rfl
  have hmap : ("unaccompanied minor interview appeal".data).map Char.toLower
      = "unaccompanied minor ".data ++ ("interview".data ++ " appeal".data) := by decide
  rw [hdata, hr]
  simp only [List.map_append, hmap, List.append_assoc]

/-- C5 counterexample: a German-procedure text that contains the substring
"unaccompanied minor interview appeal" yet classifies to "safe_countries",
because the higher-priority safe-countries rule also fires; so "for every
text containing that substring the classifier returns interview" is false
on the code. -/
theorem c5_counterexample :
    pyContains "safe countries of origin unaccompanied minor interview appeal"
      "unaccompanied minor interview appeal" = true ∧
    classify_de_topic "safe countries of origin unaccompanied minor interview appeal"
      = "safe_countries" ∧
    ("safe_countries" : String) ≠ "interview" := by
  refine ⟨by decide, by decide, by decide⟩

/-- C5 (amended): the classifiers evaluate their keyword rules in a fixed
priority order over a lowercase copy of the text, first match wins, default
"general"; a text containing "unaccompanied minor interview appeal" that does
not also trip one of the two higher-priority rules classifies to "interview",
and the exact phrase itself classifies to "interview". -/
theorem c5_classifier_priority (t : String)
    (h1 : pyContains t "unaccompanied minor interview appeal" = true)
    (h2 : pyContains (pyLower t) "safe countries of origin" = false)
    (h3 : pyContains (pyLower t) "procedure management" = false)
    (h4 : pyContains (pyLower t) "quality assurance" = false) :
    classify_de_topic t = "interview" ∧
    (∀ s, classify_de_topic s = firstRuleMatch deTopicRules (pyLower s)) ∧
    (∀ s, classify_free_move_topic s = firstRuleMatch freeMoveTopicRules (pyLower s)) ∧
    classify_de_topic "unaccompanied minor interview appeal" = "interview" := by
  have hInt := lower_keeps_interview t h1
  refine ⟨?_, classify_de_topic_rules, classify_free_move_topic_rules, by decide⟩
  simp [classify_de_topic, h2, h3, h4, hInt]

/-- C5 witness: the amended theorem applied at the concrete phrase. -/
theorem c5_classifier_priority_witness :
    pyContains "unaccompanied minor interview appeal"
      "unaccompanied minor interview appeal" = true ∧
    classify_de_topic "unaccompanied minor interview appeal" = "interview" :=
  ⟨by decide,
    (c5_classifier_priority "unaccompanied minor interview appeal"
      (by decide) (by decide) (by decide) (by decide)).1⟩

/-! ## Window-loop lemmas -/

theorem chunk_loop_eq_takeWhile (C O : Nat) (text : List Char) :
    ∀ fuel start, (chunk_loop C O text fuel start).1 =
      (raw_windows C O text fuel start).takeWhile (fun sw => !(pyStripChars sw.2).isEmpty) := by
  intro fuel
  induction fuel with
  | zero => intro start; rfl
  | succ n ih =>
    intro start
    simp only [chunk_loop, raw_windows]
    by_cases hs : start < text.length
    · rw [if_pos hs, if_pos hs, List.takeWhile_cons]
      by_cases he : (pyStripChars (sliceWindow text start C)).isEmpty
      · simp [he]
      · simp [he, ih]
    · rw [if_neg hs, if_neg hs]; rfl

theorem chunk_loop_no_break (C O : Nat) (text : List Char) :
    ∀ fuel start, (chunk_loop C O text fuel start).2 = false →
      (chunk_loop C O text fuel start).1 = raw_windows C O text fuel start := by
  intro fuel
  induction fuel with
  | zero => intro start _; rfl
  | succ n ih =>
    intro start hb
    by_cases hs : start < text.length
    · by_cases he : (pyStripChars (sliceWindow text start C)).isEmpty
      · rw [chunk_loop, if_pos hs, if_pos he] at hb
        exact absurd hb (by simp)
      · rw [chunk_loop, if_pos hs, if_neg he] at hb ⊢
        rw [raw_windows, if_pos hs]
        simpa using ih _ (by simpa using hb)
    · rw [chunk_loop, if_neg hs, raw_windows, if_neg hs]

theorem raw_windows_cons (C O : Nat) (text : List Char) {fuel start : Nat}
    {sw : Nat × List Char} {tl : List (Nat × List Char)}
    (h : raw_windows C O text fuel start = sw :: tl) :
    sw = (start, sliceWindow text start C) ∧ start < text.length := by
  cases fuel with
  | zero => simp [raw_windows] at h
  | succ n =>
    by_cases hs : start < text.length
    · rw [raw_windows, if_pos hs] at h
      exact ⟨(List.cons_eq_cons.mp h).1.symm, hs⟩
    · rw [raw_windows, if_neg hs] at h; cases h

theorem raw_windows_mem (C O : Nat) (text : List Char) :
    ∀ fuel start sw, sw ∈ raw_windows C O text fuel start →
      sw.2 = sliceWindow text sw.1 C ∧ sw.1 < text.length := by
  intro fuel
  induction fuel with
  | zero => intro start sw h; simp [raw_windows] at h
  | succ n ih =>
    intro start sw h
    by_cases hs : start < text.length
    · rw [raw_windows, if_pos hs] at h
      rcases List.mem_cons.mp h with rfl | hmem
      · exact ⟨rfl, hs⟩
      · exact ih _ _ hmem
    · rw [raw_windows, if_neg hs] at h; cases h

theorem sliceWindow_length (text : List Char) (start len : Nat) :
    (sliceWindow text start len).length = min len (text.length - start) := by
  simp [sliceWindow]

theorem raw_windows_chain_rel (C O : Nat) (text : List Char)
    (R : (Nat × List Char) → (Nat × List Char) → Prop)
    (hR : ∀ s, s < text.length → s + C - O < text.length →
      R (s, sliceWindow text s C) (s + C - O, sliceWindow text (s + C - O) C)) :
    ∀ fuel start, List.Chain' R (raw_windows C O text fuel start) := by
  intro fuel
  induction fuel with
  | zero => intro start; simp [raw_windows]
  | succ n ih =>
    intro start
    by_cases hs : start < text.length
    · rw [raw_windows, if_pos hs]
      refine List.chain'_cons'.mpr ⟨?_, ih _⟩
      intro y hy
      cases hraw : raw_windows C O text n (start + C - O) with
      | nil => rw [hraw] at hy; simp at hy
      | cons sw tl =>
        rw [hraw] at hy
        simp only [List.head?_cons, Option.mem_def, Option.some.injEq] at hy
        obtain ⟨hsw, hlt⟩ := raw_windows_cons C O text hraw
        subst hy
        rw [hsw]
        exact hR start hs hlt
    · rw [raw_windows, if_neg hs]; simp

theorem raw_windows_cover (C O : Nat) (text : List Char) (hCO : O < C) :
    ∀ fuel start i, start ≤ i → i < text.length → text.length + 1 ≤ fuel + start →
      ∃ sw ∈ raw_windows C O text fuel start, sw.1 ≤ i ∧ i < sw.1 + sw.2.length := by
  intro fuel
  induction fuel with
  | zero => intro start i h1 h2 h3; omega
  | succ n ih =>
    intro start i h1 h2 h3
    have hs : start < text.length := Nat.lt_of_le_of_lt h1 h2
    rw [raw_windows, if_pos hs]
    by_cases hic : i < start + C
    · refine ⟨(start, sliceWindow text start C), List.mem_cons_self .., h1, ?_⟩
      have hlen := sliceWindow_length text start C
      simp only [hlen]
      omega
    · obtain ⟨sw, hmem, ha, hb⟩ := ih (start + C - O) i (by omega) h2 (by omega)
      exact ⟨sw, List.mem_cons_of_mem _ hmem, ha, hb⟩

/-- C10: in the DE-procedure and free-movement splitters the emitted windows
of a page are precisely the longest whitespace-free prefix of the examined
window sequence: the first window that trims to nothing stops the page (the
loop breaks), emitting no unit for it and never examining a later window,
even when a later window still holds non-whitespace text — shown concretely
on a page whose middle window is all spaces while the final window holds an
"x". -/
theorem c10_whitespace_window_break :
    (∀ C O text fuel start,
      (chunk_loop C O text fuel start).1 =
        (raw_windows C O text fuel start).takeWhile
          (fun sw => !(pyStripChars sw.2).isEmpty)) ∧
    (∀ pages chunkSize overlap,
      split_de_procedure_into_chunks pages chunkSize overlap =
        pages.enum.flatMap fun pg =>
          (((raw_windows chunkSize overlap pg.2.data (pg.2.data.length + 1) 0).takeWhile
              (fun sw => !(pyStripChars sw.2).isEmpty)).map fun sw =>
            { text := String.mk (pyStripChars sw.2),
              source := "DE_ASYLUM_PROCEDURE_STAGES.pdf",
              page := pg.1, domain := "de_procedure" })) ∧
    (∀ pages chunkSize overlap,
      split_free_move_into_chunks pages chunkSize overlap =
        pages.enum.flatMap fun pg =>
          (((raw_windows chunkSize overlap pg.2.data (pg.2.data.length + 1) 0).takeWhile
              (fun sw => !(pyStripChars sw.2).isEmpty)).map fun sw =>
            { text := String.mk (pyStripChars sw.2),
              source := "Guidance on the right of free movement of EU citizens and their families.pdf",
              page := pg.1, domain := "free_movement_guidance" })) ∧
    ((split_de_procedure_into_chunks ["ab      x"] 4 1).map (fun c => c.text) = ["ab"] ∧
      (raw_windows 4 1 "ab      x".data 10 0).length = 3 ∧
      pyStripChars ((raw_windows 4 1 "ab      x".data 10 0).getD 2 (0, [])).2 = ['x']) := by
  refine ⟨chunk_loop_eq_takeWhile, ?_, ?_, by decide, by decide, by decide⟩
  · intro pages chunkSize overlap
    simp only [split_de_procedure_into_chunks, chunk_page, chunk_loop_eq_takeWhile]
  · intro pages chunkSize overlap
    simp only [split_free_move_into_chunks, chunk_page, chunk_loop_eq_takeWhile]

/-- C3 counterexample: chunk size 4, overlap 1 (so overlap < chunk size) on
the 9-character page "ab      x".  The second window (characters 3..6) is all
spaces, so the loop breaks and the final character "x" at index 8 is covered
by no emitted window: the emitted windows do not cover the page. -/
theorem c3_counterexample :
    (1 : Nat) < 4 ∧ (8 : Nat) < ("ab      x".data).length ∧
    (∀ sw ∈ (chunk_page 4 1 "ab      x".data).1,
      ¬(sw.1 ≤ 8 ∧ 8 < sw.1 + sw.2.length)) := by
  refine ⟨by decide, by decide, by decide⟩

/-- C3 (amended): for the fixed-window strategy with chunk size C and overlap
O < C on one page, provided the loop never meets a whitespace-only window
(no break), the emitted windows cover [0, N) with no gap, each next start is
the previous (unclipped) end minus O, windows whose unclipped end stays on
the page overlap the next window in exactly O characters, every window is a
slice of its own page (never crossing a page boundary), and the DE-procedure
and free-movement splitters are exactly this per-page loop. -/
theorem c3_window_coverage (C O : Nat) (text : List Char) (hCO : O < C)
    (hnb : (chunk_page C O text).2 = false) :
    (∀ i, i < text.length →
      ∃ sw ∈ (chunk_page C O text).1, sw.1 ≤ i ∧ i < sw.1 + sw.2.length) ∧
    List.Chain' (fun a b => b.1 = a.1 + C - O) (chunk_page C O text).1 ∧
    List.Chain' (fun a b => a.1 + C ≤ text.length → a.1 + a.2.length - b.1 = O)
      (chunk_page C O text).1 ∧
    (∀ sw ∈ (chunk_page C O text).1,
      sw.2 = sliceWindow text sw.1 C ∧ sw.1 + sw.2.length ≤ text.length) ∧
    (∀ pages chunkSize overlap,
      split_de_procedure_into_chunks pages chunkSize overlap =
        pages.enum.flatMap fun pg =>
          ((chunk_page chunkSize overlap pg.2.data).1).map fun sw =>
            { text := String.mk (pyStripChars sw.2),
              source := "DE_ASYLUM_PROCEDURE_STAGES.pdf",
              page := pg.1, domain := "de_procedure" }) ∧
    (∀ pages chunkSize overlap,
      split_free_move_into_chunks pages chunkSize overlap =
        pages.enum.flatMap fun pg =>
          ((chunk_page chunkSize overlap pg.2.data).1).map fun sw =>
            { text := String.mk (pyStripChars sw.2),
              source := "Guidance on the right of free movement of EU citizens and their families.pdf",
              page := pg.1, domain := "free_movement_guidance" }) := by
  have heq : (chunk_page C O text).1 = raw_windows C O text (text.length + 1) 0 :=
    chunk_loop_no_break C O text (text.length + 1) 0 hnb
  refine ⟨?_, ?_, ?_, ?_, fun _ _ _ => rfl, fun _ _ _ => rfl⟩
  · intro i hi
    rw [heq]
    exact raw_windows_cover C O text hCO (text.length + 1) 0 i (Nat.zero_le i) hi (by omega)
  · rw [heq]
    exact raw_windows_chain_rel C O text (fun a b => b.1 = a.1 + C - O)
      (fun s _ _ => rfl) _ _
  · rw [heq]
    refine raw_windows_chain_rel C O text _ (fun s hs hs' hle => ?_) _ _
    have h1 := sliceWindow_length text s C
    simp only [h1]
    omega
  · rw [heq]
    intro sw hsw
    obtain ⟨h1, h2⟩ := raw_windows_mem C O text _ _ _ hsw
    refine ⟨h1, ?_⟩
    have h3 := sliceWindow_length text sw.1 C
    rw [h1, h3]
    omega

/-- C3 witness: chunk size 3, overlap 1 on the page "abcde" (no break
occurs); the theorem's coverage clause applied there. -/
theorem c3_window_coverage_witness :
    (1 : Nat) < 3 ∧ (chunk_page 3 1 "abcde".data).2 = false ∧
    (∀ i, i < ("abcde".data).length →
      ∃ sw ∈ (chunk_page 3 1 "abcde".data).1, sw.1 ≤ i ∧ i < sw.1 + sw.2.length) :=
  ⟨by decide, by decide,
    (c3_window_coverage 3 1 "abcde".data (by decide) (by decide)).1⟩

theorem subs_loop_eq_filter (C O : Nat) (text : List Char) :
    ∀ fuel start, subs_loop C O text fuel start =
      ((raw_windows C O text fuel start).map (fun sw => pyStripChars sw.2)).filter
        (fun ct => decide (100 < ct.length)) := by
  intro fuel
  induction fuel with
  | zero => intro start; rfl
  | succ n ih =>
    intro start
    by_cases hs : start < text.length
    · rw [subs_loop, if_pos hs, raw_windows, if_pos hs]
      by_cases hlen : 100 < (pyStripChars (sliceWindow text start C)).length
      · simp [hlen, ih, List.filter_cons]
      · simp [hlen, ih, List.filter_cons]
    · rw [subs_loop, if_neg hs, raw_windows, if_neg hs]; rfl

set_option maxRecDepth 40000 in
/-- C4 counterexample: a 121-character window whose only article mention
"Article 5" sits mid-window.  The anchored regex finds nothing, and the
f-string then produces the label "Article general" — not "general" as the
claim states for a no-mention window, and not "Article 5" as the claim
states for a window with a mention. -/
theorem c4_counterexample :
    (split_subsidiary_into_chunks
        [String.mk (List.replicate 90 'y') ++ "\nArticle 5 " ++ String.mk (List.replicate 20 'z')]
        1200 200).map (fun u => (u.topic, u.page)) = [("Article general", 0)] ∧
    pyContains
      (String.mk (List.replicate 90 'y') ++ "\nArticle 5 " ++ String.mk (List.replicate 20 'z'))
      "Article 5" = true ∧
    ("Article general" : String) ≠ "general" ∧
    ("Article general" : String) ≠ "Article 5" := by
  refine ⟨by decide, by decide, by decide, by decide⟩

/-- C4 (amended): the subsidiary-protection splitter emits exactly the
windows whose trimmed text has length over 100 (all shorter windows are
discarded), and an emitted window's topic is "Article N" when its trimmed
text begins with an article heading — the anchored, non-multiline regex can
only find a mention at the window start, so at most one number is ever found
— and "Article general" (not "general") when it does not. -/
theorem c4_subsidiary_filter :
    (∀ C O text fuel start, subs_loop C O text fuel start =
      ((raw_windows C O text fuel start).map (fun sw => pyStripChars sw.2)).filter
        (fun ct => decide (100 < ct.length))) ∧
    (∀ pages C O u, u ∈ split_subsidiary_into_chunks pages C O →
      100 < u.text.length ∧
      u.topic = (match articleMatchDigits u.text.data with
        | some ds => "Article " ++ String.mk ds
        | none => "Article general")) := by
  refine ⟨subs_loop_eq_filter, ?_⟩
  intro pages C O u hu
  simp only [split_subsidiary_into_chunks, List.mem_flatMap, List.mem_map] at hu
  obtain ⟨pg, hpg, ct, hct, rfl⟩ := hu
  rw [subs_loop_eq_filter] at hct
  have hlen : 100 < ct.length := by
    have := List.of_mem_filter hct
    simpa using this
  refine ⟨hlen, ?_⟩
  show subsTopicOf ct = _
  unfold subsTopicOf subsFindall
  cases harticle : articleMatchDigits ct with
  | none => simp
  | some ds => simp [joinSlash]

theorem scanArticles_length (pgo : List (Nat × Nat)) (src : String) :
    ∀ (ls : List (String × Nat)) (cur : Option (Nat × Nat × List String)),
      (scanArticles pgo src ls cur).length =
        (ls.filter isArticleBoundary).length +
          (match cur with | some _ => 1 | none => 0) := by
  intro ls
  induction ls with
  | nil =>
    intro cur
    rcases cur with _ | ⟨m, st, acc⟩ <;> simp [scanArticles]
  | cons p rest ih =>
    intro cur
    obtain ⟨l, off⟩ := p
    rcases hb : matchArticleNum (pyStrip l) with _ | n <;>
      rcases cur with _ | ⟨m, st, acc⟩ <;>
        simp [scanArticles, hb, ih, List.filter_cons, isArticleBoundary]

theorem scanArticles_some (pgo : List (Nat × Nat)) (src : String) :
    ∀ (ls : List (String × Nat)) (m st : Nat) (acc : List String),
      scanArticles pgo src ls (some (m, st, acc)) =
        { text := pyStrip (joinNL (acc ++ (ls.takeWhile (fun p => !isArticleBoundary p)).map Prod.fst)),
          articleNumber := m, source := src, page := guessPage pgo st }
          :: scanArticles pgo src (ls.dropWhile (fun p => !isArticleBoundary p)) none := by
  intro ls
  induction ls with
  | nil => intro m st acc; simp [scanArticles]
  | cons p rest ih =>
    intro m st acc
    obtain ⟨l, off⟩ := p
    rcases hb : matchArticleNum (pyStrip l) with _ | n
    · have hnb : (!isArticleBoundary (l, off)) = true := by
        simp [isArticleBoundary, hb]
      rw [@List.takeWhile_cons_of_pos _ (fun q => !isArticleBoundary q) (l, off) rest hnb,
        @List.dropWhile_cons_of_pos _ (fun q => !isArticleBoundary q) (l, off) rest hnb]
      have hstep : scanArticles pgo src ((l, off) :: rest) (some (m, st, acc)) =
          scanArticles pgo src rest (some (m, st, acc ++ [l])) := by
        simp [scanArticles, hb]
      rw [hstep, ih]
      simp [List.append_assoc]
    · have hyb : ¬(!isArticleBoundary (l, off)) = true := by
        simp [isArticleBoundary, hb]
      rw [@List.takeWhile_cons_of_neg _ (fun q => !isArticleBoundary q) (l, off) rest hyb,
        @List.dropWhile_cons_of_neg _ (fun q => !isArticleBoundary q) (l, off) rest hyb]
      have hstep : scanArticles pgo src ((l, off) :: rest) (some (m, st, acc)) =
          { text := pyStrip (joinNL acc), articleNumber := m, source := src,
            page := guessPage pgo st } :: scanArticles pgo src rest (some (n, off, [l])) := by
        simp [scanArticles, hb]
      have hnone : scanArticles pgo src ((l, off) :: rest) none =
          scanArticles pgo src rest (some (n, off, [l])) := by
        simp [scanArticles, hb]
      rw [hstep, hnone]
      simp

theorem scanArticles_none (pgo : List (Nat × Nat)) (src : String) :
    ∀ (ls : List (String × Nat)),
      scanArticles pgo src ls none = (articleSegs ls).map (fun seg =>
        { text := pyStrip (joinNL seg.2.2), articleNumber := seg.1, source := src,
          page := guessPage pgo seg.2.1 }) := by
  have H : ∀ (k : Nat) (ls : List (String × Nat)), ls.length ≤ k →
      scanArticles pgo src ls none = (articleSegs ls).map (fun seg =>
        { text := pyStrip (joinNL seg.2.2), articleNumber := seg.1, source := src,
          page := guessPage pgo seg.2.1 }) := by
    intro k
    induction k with
    | zero =>
      intro ls hls
      rw [List.length_eq_zero.mp (Nat.le_zero.mp hls)]
      simp [scanArticles, articleSegs]
    | succ n ih =>
      intro ls hls
      cases ls with
      | nil => simp [scanArticles, articleSegs]
      | cons p rest =>
        obtain ⟨l, off⟩ := p
        rcases hb : matchArticleNum (pyStrip l) with _ | num
        · have hstep : scanArticles pgo src ((l, off) :: rest) none =
              scanArticles pgo src rest none := by
            simp [scanArticles, hb]
          rw [hstep, articleSegs]
          simp only [hb]
          exact ih rest (by simpa using Nat.le_of_succ_le_succ hls)
        · have hstep : scanArticles pgo src ((l, off) :: rest) none =
              scanArticles pgo src rest (some (num, off, [l])) := by
            simp [scanArticles, hb]
          rw [hstep, articleSegs]
          simp only [hb]
          rw [scanArticles_some]
          simp only [List.map_cons, List.singleton_append]
          refine congrArg₂ _ rfl ?_
          exact ih _ (Nat.le_trans (List.dropWhile_sublist _).length_le (Nat.le_of_succ_le_succ hls))
  intro ls
  exact H ls.length ls (Nat.le_refl _)

/-- C2 counterexample: on a source whose article is followed by a
whitespace-only line, the emitted unit's text is the joined lines *stripped*
— not the boundary line followed verbatim by all subsequent lines up to the
next boundary, as the claim states. -/
theorem c2_counterexample :
    (split_pdf_into_articles ["Article 1\nFoo.\n "] "DUBLIN REGULATIONS.pdf").map
      (fun d => d.text) = ["Article 1\nFoo."] ∧
    pySplitLines (allTextOf ["Article 1\nFoo.\n "]) = ["Article 1", "Foo.", " "] ∧
    joinNL ["Article 1", "Foo.", " "] = "Article 1\nFoo.\n " ∧
    ("Article 1\nFoo." : String) ≠ "Article 1\nFoo.\n " := by
  refine ⟨by decide, by decide, by decide, by decide⟩

/-- C2 (amended): the article splitter emits exactly one unit per line whose
*stripped* text matches the boundary pattern; zero boundary lines give zero
units; the unit built from each boundary consists of the boundary line and
the following non-boundary lines, joined with newlines and then stripped of
surrounding whitespace (content before the first boundary is discarded, as
`articleSegs` shows); and the two-article example yields exactly the two
expected units. -/
theorem c2_article_segmentation :
    (∀ pages src, (split_pdf_into_articles pages src).length =
      boundaryCount (pySplitLines (allTextOf pages))) ∧
    (∀ pages src, boundaryCount (pySplitLines (allTextOf pages)) = 0 →
      split_pdf_into_articles pages src = []) ∧
    (∀ pages src, split_pdf_into_articles pages src =
      (articleSegs (linesWithOffsets (pySplitLines (allTextOf pages)) 0)).map (fun seg =>
        { text := pyStrip (joinNL seg.2.2), articleNumber := seg.1, source := src,
          page := guessPage (pageOffsets pages 0 0) seg.2.1 })) ∧
    ((split_pdf_into_articles ["Article 1\nFoo.\nArticle 2\nBar."] "DUBLIN REGULATIONS.pdf").map
      (fun d => (d.text, d.articleNumber)) =
        [("Article 1\nFoo.", 1), ("Article 2\nBar.", 2)]) := by
  have hfilter : ∀ (ls : List String) (n : Nat),
      ((linesWithOffsets ls n).filter isArticleBoundary).length =
        (ls.filter (fun l => (matchArticleNum (pyStrip l)).isSome)).length := by
    intro ls
    induction ls with
    | nil => intro n; rfl
    | cons l rest ih =>
      intro n
      by_cases hl : (matchArticleNum (pyStrip l)).isSome
      · simp [linesWithOffsets, List.filter_cons, isArticleBoundary, hl, ih]
      · simp [linesWithOffsets, List.filter_cons, isArticleBoundary, hl, ih]
  refine ⟨?_, ?_, ?_, by decide⟩
  · intro pages src
    unfold split_pdf_into_articles boundaryCount
    rw [scanArticles_length]
    simp [hfilter]
  · intro pages src h
    have hl : (split_pdf_into_articles pages src).length = 0 := by
      unfold split_pdf_into_articles
      rw [scanArticles_length]
      unfold boundaryCount at h
      rw [hfilter]
      simpa using h
    exact List.length_eq_zero.mp hl
  · intro pages src
    exact scanArticles_none _ _ _

/-- The embedded SHA-256 agrees with the FIPS 180-4 test vector for "abc". -/
theorem sha256_fips_vector_abc : String.mk (sha256HexChars (strBytes "abc")) =
    "ba7816bf8f01cfea414140de5dae2223b00361a396177a9cb410ff61f20015ad" := by decide

/-- The embedded SHA-256 agrees with the FIPS 180-4 test vector for the
empty message. -/
theorem sha256_fips_vector_empty : String.mk (sha256HexChars (strBytes "")) =
    "e3b0c44298fc1c149afbf4c8996fb92427ae41e4649b934ca495991b7852b855" := by decide

/-! ## Whitespace-only text never reaches the embedding call (C6) -/

theorem dropWhile_head_not {α : Type} (p : α → Bool) :
    ∀ (l : List α) (c : α), (l.dropWhile p).head? = some c → p c = false := by
  intro l
  induction l with
  | nil => intro c h; simp at h
  | cons x xs ih =>
    intro c h
    rw [List.dropWhile_cons] at h
    split at h
    · exact ih c h
    · simp only [List.head?_cons, Option.some.injEq] at h
      subst h
      rename_i hx
      simp only [Bool.not_eq_true] at hx
      exact hx

theorem pyStripChars_eq_nil_iff (l : List Char) :
    pyStripChars l = [] ↔ ∀ c ∈ l, isPySpace c = true := by
  unfold pyStripChars
  rw [List.reverse_eq_nil_iff, List.dropWhile_eq_nil_iff]
  constructor
  · intro h c hc
    have hdecomp := List.takeWhile_append_dropWhile isPySpace l
    rcases List.mem_append.mp (hdecomp ▸ hc) with h1 | h2
    · exact List.mem_takeWhile_imp h1
    · exact h c (List.mem_reverse.mpr h2)
  · intro h c hc
    have hmem : c ∈ l.dropWhile isPySpace := List.mem_reverse.mp hc
    exact h c (List.Sublist.mem hmem (List.dropWhile_sublist isPySpace))

theorem pyStripChars_has_nonspace (w : List Char) (hne : pyStripChars w ≠ []) :
    ∃ c ∈ pyStripChars w, isPySpace c = false := by
  rcases hBe : (w.dropWhile isPySpace).reverse.dropWhile isPySpace with _ | ⟨b, bs⟩
  · exact absurd (by unfold pyStripChars; rw [hBe]; rfl) hne
  · have hb : isPySpace b = false :=
      dropWhile_head_not isPySpace (w.dropWhile isPySpace).reverse b (by rw [hBe]; rfl)
    refine ⟨b, ?_, hb⟩
    unfold pyStripChars
    rw [hBe]
    exact List.mem_reverse.mpr (List.mem_cons_self ..)

theorem stripped_text_not_ws (w : List Char) (hne : (pyStripChars w).isEmpty = false) :
    pyStrip (String.mk (pyStripChars w)) ≠ "" := by
  intro hcontra
  have hdata : pyStripChars (pyStripChars w) = [] := by
    simpa [pyStrip] using congrArg String.data hcontra
  have hall := (pyStripChars_eq_nil_iff (pyStripChars w)).mp hdata
  have hne' : pyStripChars w ≠ [] := by
    intro h; rw [h] at hne; simp at hne
  obtain ⟨c, hc, hcs⟩ := pyStripChars_has_nonspace w hne'
  rw [hall c hc] at hcs
  cases hcs

/-- C6: whitespace-only unit text never triggers an embedding call —
`get_embedding` short-circuits to an empty vector with zero service calls —
and no persisted DE-procedure node carries such a text: every unit the
splitter hands to `ingest_de_procedure` has non-whitespace text (the loop
breaks on a whitespace-only window before emitting it), so no node is ever
written for a whitespace-only unit. -/
theorem c6_empty_text_skipped (svc : String → List Int) (pages : List String)
    (chunkSize overlap : Nat) (t : String) (h : pyStrip t = "") :
    get_embedding svc t = ([], 0) ∧
    (∀ m ∈ ingest_de_procedure svc
        (split_de_procedure_into_chunks pages chunkSize overlap),
      ∀ n regId rel, m = Mutation.mergeUnit n regId rel →
        pyStrip n.text ≠ "" ∧ n.text ≠ t) := by
  constructor
  · simp [get_embedding, h]
  · intro m hm n regId rel heq
    subst heq
    simp only [ingest_de_procedure, List.mem_map] at hm
    obtain ⟨doc, hdoc, hmu⟩ := hm
    have hn : n.text = doc.text := by
      cases hmu
      rfl
    simp only [split_de_procedure_into_chunks, List.mem_flatMap, List.mem_map] at hdoc
    obtain ⟨pg, hpg, sw, hsw, hdoc'⟩ := hdoc
    have htext : doc.text = String.mk (pyStripChars sw.2) := by
      cases hdoc'
      rfl
    have hpred : (!(pyStripChars sw.2).isEmpty) = true := by
      rw [chunk_page, chunk_loop_eq_takeWhile] at hsw
      exact @List.mem_takeWhile_imp _ (fun q => !(pyStripChars q.2).isEmpty) _ sw hsw
    have hempty : (pyStripChars sw.2).isEmpty = false := by
      simpa using hpred
    have hws := stripped_text_not_ws sw.2 hempty
    rw [hn, htext]
    refine ⟨hws, ?_⟩
    intro hcontra
    rw [hcontra, h] at hws
    exact hws rfl

/-- C6 witness: a whitespace-only text against a concrete one-page run. -/
theorem c6_empty_text_skipped_witness :
    pyStrip " " = "" ∧
    (get_embedding (fun _ => ([] : List Int)) " " = ([], 0) ∧
     (∀ m ∈ ingest_de_procedure (fun _ => ([] : List Int))
          (split_de_procedure_into_chunks ["ab"] 800 150),
        ∀ n regId rel, m = Mutation.mergeUnit n regId rel →
          pyStrip n.text ≠ "" ∧ n.text ≠ " ")) :=
  ⟨by decide, c6_empty_text_skipped (fun _ => ([] : List Int)) ["ab"] 800 150 " " (by decide)⟩

/-- C8: if any one of the six named source files is missing, the run raises
at the up-front file check: no mutation at all is issued (no reset, no
seeding, no unit persistence) and the error value is set. -/
theorem c8_missing_file_aborts (svc : String → List Int)
    (pdfs : String → Option (List String)) (p : String)
    (hp : p ∈ [PDF_DUBLIN, PDF_CHARTER, PDF_DE_PROC, PDF_SUBSIDIARY, PDF_FREE_MOVE,
      PDF_REFUGEE_CONV])
    (hm : pdfs p = none) :
    (ingest_all svc pdfs).1 = [] ∧ (ingest_all svc pdfs).2.isSome := by
  have hsome : ([PDF_DUBLIN, PDF_CHARTER, PDF_DE_PROC, PDF_SUBSIDIARY, PDF_FREE_MOVE,
      PDF_REFUGEE_CONV].find? (fun q => (pdfs q).isNone)).isSome := by
    rw [List.find?_isSome]
    exact ⟨p, hp, by simp [hm]⟩
  obtain ⟨q, hq⟩ := Option.isSome_iff_exists.mp hsome
  unfold ingest_all
  rw [hq]
  exact ⟨rfl, rfl⟩

/-- C8 witness: an empty filesystem. -/
theorem c8_missing_file_aborts_witness :
    (fun (_ : String) => (none : Option (List String))) PDF_DUBLIN = none ∧
    ((ingest_all (fun _ => ([] : List Int)) (fun _ => none)).1 = [] ∧
      (ingest_all (fun _ => ([] : List Int)) (fun _ => none)).2.isSome) :=
  ⟨rfl, c8_missing_file_aborts (fun _ => ([] : List Int)) (fun _ => none) PDF_DUBLIN
    (List.mem_cons_self ..) rfl⟩

/-! ## The subsidiary lookup can never find a node (C9) -/

theorem mem_upsertNode {x n : UnitNode} {acc : List UnitNode}
    (hx : x ∈ upsertNode n acc) : x = n ∨ x ∈ acc := by
  unfold upsertNode at hx
  split at hx
  · rcases List.mem_map.mp hx with ⟨y, hy, hxy⟩
    by_cases hc : (y.label == n.label && y.id == n.id) = true
    · rw [if_pos hc] at hxy; exact Or.inl hxy.symm
    · rw [if_neg hc] at hxy; exact Or.inr (hxy ▸ hy)
  · rcases List.mem_append.mp hx with h1 | h2
    · exact Or.inr h1
    · exact Or.inl (List.mem_singleton.mp h2)

theorem apply_mutations_labels :
    ∀ (ms : List Mutation) (acc : List UnitNode),
      (∀ m ∈ ms, ∀ n regId rel, m = Mutation.mergeUnit n regId rel →
        n.label ≠ "SubsidiaryArticle") →
      (∀ x ∈ acc, x.label ≠ "SubsidiaryArticle") →
      ∀ x ∈ ms.foldl (fun acc m =>
          match m with
          | Mutation.mergeUnit n _ _ => upsertNode n acc
          | _ => acc) acc,
        x.label ≠ "SubsidiaryArticle" := by
  intro ms
  induction ms with
  | nil => intro acc _ hacc x hx; exact hacc x hx
  | cons m rest ih =>
    intro acc hms hacc x hx
    rw [List.foldl_cons] at hx
    cases m with
    | resetNodes lbl =>
      exact ih acc (fun m hm => hms m (List.mem_cons_of_mem _ hm)) hacc x hx
    | addConstraint lbl =>
      exact ih acc (fun m hm => hms m (List.mem_cons_of_mem _ hm)) hacc x hx
    | mergeRegulation a b c d =>
      exact ih acc (fun m hm => hms m (List.mem_cons_of_mem _ hm)) hacc x hx
    | mergeCountry code =>
      exact ih acc (fun m hm => hms m (List.mem_cons_of_mem _ hm)) hacc x hx
    | mergeUnit n regId rel =>
      refine ih (upsertNode n acc) (fun m hm => hms m (List.mem_cons_of_mem _ hm)) ?_ x hx
      intro y hy
      rcases mem_upsertNode hy with rfl | hmem
      · exact hms _ (List.mem_cons_self ..) y regId rel rfl
      · exact hacc y hmem

theorem ingest_all_unit_labels (svc : String → List Int)
    (pdfs : String → Option (List String)) :
    ∀ m ∈ (ingest_all svc pdfs).1, ∀ n regId rel, m = Mutation.mergeUnit n regId rel →
      n.label ∈ (["Article", "CharterArticle", "DEProcedure", "SubsidiarySection",
        "FreeMovementSection", "GenevaArticle"] : List String) := by
  intro m hm n regId rel heq
  subst heq
  unfold ingest_all at hm
  split at hm
  · simp at hm
  · rcases List.mem_append.mp hm with h | hGen
    · rcases List.mem_append.mp h with h | hFm
      · rcases List.mem_append.mp h with h | hSubs
        · rcases List.mem_append.mp h with h | hDe
          · rcases List.mem_append.mp h with h | hCh
            · rcases List.mem_append.mp h with h | hDub
              · rcases List.mem_append.mp h with hInit | hCore
                · simp [init_graph_mutations] at hInit
                · simp [create_core_legal_structure] at hCore
              · simp only [ingest_articles, List.mem_map] at hDub
                obtain ⟨doc, hdoc, hh⟩ := hDub
                cases hh
                simp
            · simp only [ingest_charter_articles, List.mem_map] at hCh
              obtain ⟨doc, hdoc, hh⟩ := hCh
              cases hh
              simp
          · simp only [ingest_de_procedure, List.mem_map] at hDe
            obtain ⟨doc, hdoc, hh⟩ := hDe
            cases hh
            simp
        · simp only [ingest_subsidiary_chunks, List.mem_map] at hSubs
          obtain ⟨doc, hdoc, hh⟩ := hSubs
          cases hh
          simp
      · simp only [ingest_free_movement_guidance, List.mem_map] at hFm
        obtain ⟨doc, hdoc, hh⟩ := hFm
        cases hh
        simp
    · simp only [ingest_geneva_articles, List.mem_map] at hGen
      obtain ⟨doc, hdoc, hh⟩ := hGen
      cases hh
      simp

/-- C9: for every store state the ingestion pipeline can produce,
`fetch_subsidiary_article_text` returns the not-found signal: it matches the
label `SubsidiaryArticle`, which no ingest step ever writes — subsidiary
chunks are persisted as `SubsidiarySection` nodes. -/
theorem c9_subsidiary_lookup_never_finds (svc : String → List Int)
    (pdfs : String → Option (List String)) (num : Nat) :
    fetch_subsidiary_article_text (apply_mutations (ingest_all svc pdfs).1) num = none := by
  have hlabels : ∀ x ∈ apply_mutations (ingest_all svc pdfs).1,
      x.label ≠ "SubsidiaryArticle" := by
    apply apply_mutations_labels (ingest_all svc pdfs).1 [] ?_ (by simp)
    intro m hm n regId rel heq
    have := ingest_all_unit_labels svc pdfs m hm n regId rel heq
    intro hcontra
    rw [hcontra] at this
    simp at this
  have hfil : (apply_mutations (ingest_all svc pdfs).1).filter
      (fun s => s.label == "SubsidiaryArticle" && s.articleNumber == some num) = [] := by
    rw [List.filter_eq_nil_iff]
    intro a ha
    simp only [Bool.and_eq_true, beq_iff_eq, not_and]
    intro hl
    exact absurd hl (hlabels a ha)
  unfold fetch_subsidiary_article_text
  rw [hfil]
  rfl

/-! ## The direct-lookup contract (C7) -/

theorem foldl_truthy_texts :
    ∀ (rows : List UnitNode) (acc : List String),
      rows.foldl (fun ts r => if r.text = "" then ts else ts ++ [r.text]) acc =
        acc ++ (rows.map (fun r => r.text)).filter (fun t => !(t == "")) := by
  intro rows
  induction rows with
  | nil => intro acc; simp
  | cons r rest ih =>
    intro acc
    rw [List.foldl_cons, List.map_cons, List.filter_cons]
    by_cases hr : r.text = ""
    · simp [hr, ih]
    · simp only [hr, if_neg hr, ih, List.append_assoc, List.singleton_append]
      have : (!(r.text == "")) = true := by simpa using hr
      rw [this]
      simp

theorem mem_insertByPage {x n : UnitNode} :
    ∀ (l : List UnitNode), x ∈ insertByPage n l ↔ x = n ∨ x ∈ l := by
  intro l
  induction l with
  | nil => simp [insertByPage]
  | cons y ys ih =>
    unfold insertByPage
    split
    · simp
    · rw [List.mem_cons, ih, List.mem_cons]
      tauto

theorem mem_sortByPage {x : UnitNode} :
    ∀ (l : List UnitNode), x ∈ sortByPage l ↔ x ∈ l := by
  have H : ∀ (l : List UnitNode) (acc : List UnitNode),
      x ∈ l.foldl (fun acc n => insertByPage n acc) acc ↔ x ∈ acc ∨ x ∈ l := by
    intro l
    induction l with
    | nil => intro acc; simp
    | cons n rest ih =>
      intro acc
      rw [List.foldl_cons, ih, mem_insertByPage, List.mem_cons]
      tauto
  intro l
  unfold sortByPage
  rw [H l []]
  simp

theorem isEmpty_map {a b : Type} (f : a -> b) (l : List a) :
    (l.map f).isEmpty = l.isEmpty := by
  cases l <;> rfl

theorem fetch_eq_claimed_of_nonempty (store : List UnitNode) (p : UnitNode → Bool)
    (h : ∀ n ∈ store, n.text ≠ "") :
    (let rows := sortByPage (store.filter p)
     let texts := rows.foldl (fun ts r => if r.text = "" then ts else ts ++ [r.text]) []
     if texts.isEmpty then none else some (joinBlank texts)) =
    (let rows := sortByPage (store.filter p)
     if rows.isEmpty then none else some (joinBlank (rows.map (fun r => r.text)))) := by
  have hrows : ∀ r ∈ sortByPage (store.filter p), r.text ≠ "" := by
    intro r hr
    exact h r (List.mem_of_mem_filter (mem_sortByPage _ |>.mp hr))
  have hkeep : ((sortByPage (store.filter p)).map (fun r => r.text)).filter
      (fun t => !(t == "")) = (sortByPage (store.filter p)).map (fun r => r.text) := by
    rw [List.filter_eq_self]
    intro t ht
    rcases List.mem_map.mp ht with ⟨r, hr, rfl⟩
    simpa using hrows r hr
  simp only [foldl_truthy_texts, List.nil_append, hkeep, isEmpty_map]

/-- C7 counterexample: a store holding one matching Article node whose text
is empty.  A unit matches, yet the code returns the not-found signal `none`
(the truthiness test drops the empty text), while the claim as stated
demands the concatenation of all matching texts. -/
theorem c7_counterexample :
    fetch_article_text
      [(⟨"Article", "i", "s", 0, "v", "j", some 5, none, none, "", []⟩ : UnitNode)] 5 = none ∧
    fetch_article_text_claimed
      [(⟨"Article", "i", "s", 0, "v", "j", some 5, none, none, "", []⟩ : UnitNode)] 5 =
        some "" ∧
    ([(⟨"Article", "i", "s", 0, "v", "j", some 5, none, none, "", []⟩ : UnitNode)].filter
      (fun a => a.label == "Article" && a.articleNumber == some 5)).length = 1 ∧
    (none : Option String) ≠ some "" := by
  refine ⟨by decide, by decide, by decide, by decide⟩

/-- C7 (amended): on stores whose unit texts are all non-empty — which is
every store the pipeline produces — the Dublin and Charter lookups return
exactly the claim's contract: the blank-line concatenation of all matching
texts ordered by ascending page, and `none` when no unit matches.  (On a
store with an empty-text unit the code instead drops that text, returning
`none` even though a unit matched.) -/
theorem c7_lookup_contract (store : List UnitNode) (num : Nat)
    (h : ∀ n ∈ store, n.text ≠ "") :
    fetch_article_text store num = fetch_article_text_claimed store num ∧
    fetch_charter_article_text store num = fetch_charter_article_text_claimed store num ∧
    (store.filter (fun a => a.label == "Article" && a.articleNumber == some num) = [] →
      fetch_article_text store num = none) := by
  refine ⟨?_, ?_, ?_⟩
  · unfold fetch_article_text fetch_article_text_claimed
    exact fetch_eq_claimed_of_nonempty store _ h
  · unfold fetch_charter_article_text fetch_charter_article_text_claimed
    exact fetch_eq_claimed_of_nonempty store _ h
  · intro hfil
    unfold fetch_article_text
    rw [hfil]
    rfl

/-- C7 witness: a one-node store with non-empty text. -/
theorem c7_lookup_contract_witness :
    (∀ n ∈ [(⟨"Article", "i", "s", 0, "v", "j", some 5, none, none, "T", []⟩ : UnitNode)],
      n.text ≠ "") ∧
    fetch_article_text
      [(⟨"Article", "i", "s", 0, "v", "j", some 5, none, none, "T", []⟩ : UnitNode)] 5 =
    fetch_article_text_claimed
      [(⟨"Article", "i", "s", 0, "v", "j", some 5, none, none, "T", []⟩ : UnitNode)] 5 :=
  ⟨by decide,
    (c7_lookup_contract
      [(⟨"Article", "i", "s", 0, "v", "j", some 5, none, none, "T", []⟩ : UnitNode)] 5
      (by decide)).1⟩

theorem beVal_lt : ∀ (l : List Nat), (∀ b ∈ l, b < 256) → beVal l < 256 ^ l.length := by
  intro l
  induction l with
  | nil => intro _; simp [beVal]
  | cons b bs ih =>
    intro h
    have hb : b < 256 := h b (List.mem_cons_self ..)
    have hbs : beVal bs < 256 ^ bs.length :=
      ih (fun x hx => h x (List.mem_cons_of_mem _ hx))
    have h1 : b * 256 ^ bs.length + beVal bs < (b + 1) * 256 ^ bs.length := by
      rw [Nat.succ_mul]
      omega
    have h2 : (b + 1) * 256 ^ bs.length ≤ 256 * 256 ^ bs.length :=
      Nat.mul_le_mul_right _ hb
    calc beVal (b :: bs) = b * 256 ^ bs.length + beVal bs := rfl
      _ < (b + 1) * 256 ^ bs.length := h1
      _ ≤ 256 * 256 ^ bs.length := h2
      _ = 256 ^ (bs.length + 1) := by rw [Nat.pow_succ, Nat.mul_comm]
      _ = 256 ^ (b :: bs).length := by simp

theorem beVal_inj : ∀ (l1 l2 : List Nat), l1.length = l2.length →
    (∀ b ∈ l1, b < 256) → (∀ b ∈ l2, b < 256) → beVal l1 = beVal l2 → l1 = l2 := by
  intro l1
  induction l1 with
  | nil =>
    intro l2 hlen _ _ _
    cases l2 with
    | nil => rfl
    | cons c cs => simp at hlen
  | cons b bs ih =>
    intro l2 hlen h1 h2 heq
    cases l2 with
    | nil => simp at hlen
    | cons c cs =>
      have hlen' : bs.length = cs.length := by simpa using hlen
      have hvb : beVal bs < 256 ^ bs.length :=
        beVal_lt bs (fun x hx => h1 x (List.mem_cons_of_mem _ hx))
      have hvc : beVal cs < 256 ^ bs.length := by
        rw [hlen']
        exact beVal_lt cs (fun x hx => h2 x (List.mem_cons_of_mem _ hx))
      have heq' : 256 ^ bs.length * b + beVal bs = 256 ^ bs.length * c + beVal cs := by
        have hstep : beVal (b :: bs) = beVal (c :: cs) := heq
        simp only [beVal] at hstep
        rw [← hlen'] at hstep
        rw [Nat.mul_comm (256 ^ bs.length) b, Nat.mul_comm (256 ^ bs.length) c]
        exact hstep
      have hXpos : 0 < 256 ^ bs.length := Nat.pow_pos (by omega)
      have hdiv := congrArg (fun v => v / 256 ^ bs.length) heq'
      simp only [Nat.mul_add_div hXpos, Nat.div_eq_of_lt hvb, Nat.div_eq_of_lt hvc] at hdiv
      have hbc : b = c := by omega
      subst hbc
      have hv : beVal bs = beVal cs := by omega
      rw [ih cs hlen' (fun x hx => h1 x (List.mem_cons_of_mem _ hx))
        (fun x hx => h2 x (List.mem_cons_of_mem _ hx)) hv]

theorem sha256Bytes_length (msg : List Nat) : (sha256Bytes msg).length = 32 := rfl

theorem sha256Bytes_lt (msg : List Nat) : ∀ b ∈ sha256Bytes msg, b < 256 := by
  intro b hb
  unfold sha256Bytes at hb
  rcases List.mem_flatMap.mp hb with ⟨w, hw, hbw⟩
  unfold word4BytesBE at hbw
  simp only [List.mem_cons, List.not_mem_nil, or_false] at hbw
  rcases hbw with rfl | rfl | rfl | rfl <;> exact Nat.mod_lt _ (by omega)

/-- C1 counterexample: by pigeonhole over the `16 ^ 16`-value identifier
space there exist two distinct topic labels giving the same identifier for
the same chunk text, so "two chunks with identical text but different topic
labels get different identifiers" is false as a universal statement about
the truncated-hash scheme. -/
theorem c1_counterexample :
    ∃ l1 l2 : String, l1 ≠ l2 ∧ chunk_node_id "x" l1 = chunk_node_id "x" l2 := by
  have hcard : Fintype.card (Fin (256 ^ 32)) < Fintype.card (Fin (256 ^ 32 + 1)) := by
    rw [Fintype.card_fin, Fintype.card_fin]
    exact Nat.lt_succ_self _
  obtain ⟨i, j, hne, heq⟩ := Fintype.exists_ne_map_eq_of_card_lt
    (fun i : Fin (256 ^ 32 + 1) =>
      (⟨beVal (sha256Bytes (strBytes ("x" ++ collisionLabel i.val))), by
        have hlen := sha256Bytes_length (strBytes ("x" ++ collisionLabel i.val))
        have hlt := beVal_lt _ (sha256Bytes_lt (strBytes ("x" ++ collisionLabel i.val)))
        rw [hlen] at hlt
        exact hlt⟩ : Fin (256 ^ 32))) hcard
  refine ⟨collisionLabel i.val, collisionLabel j.val, ?_, ?_⟩
  · intro hcontra
    apply hne
    have hdata := congrArg String.data hcontra
    have hlen := congrArg List.length hdata
    simp only [collisionLabel, List.length_replicate] at hlen
    exact Fin.ext hlen
  · have hv : beVal (sha256Bytes (strBytes ("x" ++ collisionLabel i.val))) =
        beVal (sha256Bytes (strBytes ("x" ++ collisionLabel j.val))) := by
      simpa using congrArg Fin.val heq
    have hbytes := beVal_inj _ _
      (by rw [sha256Bytes_length, sha256Bytes_length])
      (sha256Bytes_lt _) (sha256Bytes_lt _) hv
    unfold chunk_node_id hash_id16 sha256HexChars
    rw [hbytes]

/-- C1 (amended): identifiers are deterministic and content-addressed — the
article-style identifier is the first 16 hex characters of SHA-256 of the
unit text, the chunk identifier the first 16 hex characters of SHA-256 of
text concatenated with topic, exactly as the persisted nodes carry them;
identical canonical content always gives the identical identifier; distinct
topic labels on the same text give distinct canonical content and hence, up
to truncated-hash collisions (which exist by pigeonhole but are negligible
in practice), distinct identifiers — verified distinct at concrete
inputs. -/
theorem c1_identifier_scheme :
    (∀ t : String, article_node_id t = String.mk ((sha256HexChars (strBytes t)).take 16)) ∧
    (∀ t l : String,
      chunk_node_id t l = String.mk ((sha256HexChars (strBytes (t ++ l))).take 16)) ∧
    (∀ s1 s2 : String, s1 = s2 → hash_id16 s1 = hash_id16 s2) ∧
    (∀ t l1 l2 : String, l1 ≠ l2 → t ++ l1 ≠ t ++ l2) ∧
    (∀ svc docs m n regId rel, m ∈ ingest_articles svc docs →
      m = Mutation.mergeUnit n regId rel → n.id = article_node_id n.text) ∧
    (∀ svc docs m n regId rel, m ∈ ingest_de_procedure svc docs →
      m = Mutation.mergeUnit n regId rel →
        ∃ tp, n.topic = some tp ∧ n.id = chunk_node_id n.text tp) ∧
    (∀ svc docs m n regId rel, m ∈ ingest_subsidiary_chunks svc docs →
      m = Mutation.mergeUnit n regId rel →
        ∃ tp, n.topic = some tp ∧ n.id = chunk_node_id n.text tp) ∧
    chunk_node_id "x" "a" ≠ chunk_node_id "x" "b" ∧
    article_node_id "a" ≠ article_node_id "b" := by
  refine ⟨fun t => rfl, fun t l => rfl, fun s1 s2 h => by rw [h], ?_, ?_, ?_, ?_,
    by decide, by decide⟩
  · intro t l1 l2 hne he
    apply hne
    have h1 := congrArg String.data he
    rw [String.data_append, String.data_append] at h1
    have h2 := List.append_cancel_left h1
    cases l1 with
    | mk d1 =>
      cases l2 with
      | mk d2 =>
        cases h2
        rfl
  · intro svc docs m n regId rel hm heq
    subst heq
    simp only [ingest_articles, List.mem_map] at hm
    obtain ⟨doc, _, hh⟩ := hm
    cases hh
    rfl
  · intro svc docs m n regId rel hm heq
    subst heq
    simp only [ingest_de_procedure, List.mem_map] at hm
    obtain ⟨doc, _, hh⟩ := hm
    cases hh
    exact ⟨classify_de_topic doc.text, rfl, rfl⟩
  · intro svc docs m n regId rel hm heq
    subst heq
    simp only [ingest_subsidiary_chunks, List.mem_map] at hm
    obtain ⟨doc, _, hh⟩ := hm
    cases hh
    exact ⟨doc.topic, rfl, rfl⟩
